import Mathlib

/-!
Verification of the Quai ProgPoW seal-verification engine
(`progpow-verification-wasm`): a shallow embedding of the header sealing
pre-image (`SealHash`, `Hash`), the verifier facade (`verifySeal`,
`ComputePowLight`), the epoch-artifact LRU (`lru.get`) and the cache-dump
magic validation (`memoryMap`), together with theorems about them.

Machine bytes are modelled as natural numbers below 256 in lists; `uint64`
truncation is explicit `% 2^64`; Go `*big.Int` fields are `Int`; Go panics
(out-of-range slice indexing) surface as `Option.none`; Go `error` returns
are explicit sum values.  The BLAKE3-256 primitive and the ProgPoW hashing
kernel are external to the repository's verification logic, so they appear
as function parameters: every theorem holds for all instantiations.
-/

/-- A byte string: each entry is one byte (`0 ≤ b < 256` in the Go source;
the bound is irrelevant to the claims, so it is not carried around). -/
abbrev Bytes := List Nat

/-- Big-endian interpretation of a byte string as a natural number, as Go's
`binary.BigEndian.Uint64` and `big.Int.SetBytes` read bytes. -/
def beNat (l : Bytes) : Nat := l.foldl (fun a b => a * 256 + b) 0

/-- The all-zero 32-byte hash, Go's `common.Hash{}`. -/
def zeroHash : Bytes := List.replicate 32 0

/-- Minimal big-endian byte representation of a natural number (`0 ↦ []`),
as canonical RLP represents integers. -/
def natToBE : Nat → Bytes
  | 0 => []
  | n + 1 => natToBE ((n + 1) / 256) ++ [(n + 1) % 256]
decreasing_by exact Nat.div_lt_self (Nat.succ_pos n) (by omega)

/-- Modelled from the spec: canonical RLP item framing (§6).  A payload of
at most 55 bytes is prefixed by `base + length`; a longer payload by
`base + 55 + ‖length‖` followed by the big-endian length bytes.  The `rlp`
package that implements this is absent from the provided sources apart from
`rlp/raw.go`. -/
def encWith (base : Nat) (payload : Bytes) : Bytes :=
  if payload.length ≤ 55 then (base + payload.length) :: payload
  else
    let lb := natToBE payload.length
    (base + 55 + lb.length) :: (lb ++ payload)

/-- Modelled from the spec: canonical RLP encoding of a byte string — a
single byte below `0x80` encodes as itself, otherwise the string is
length-prefixed with base `0x80`. -/
def encString (b : Bytes) : Bytes :=
  match b with
  | [x] => if x < 0x80 then [x] else encWith 0x80 b
  | _ => encWith 0x80 b

/-- Modelled from the spec: canonical RLP list framing with base `0xc0`
around an already-encoded payload. -/
def encList (payload : Bytes) : Bytes := encWith 0xc0 payload

/-- Modelled from the spec: canonical RLP encoding of a non-negative
integer — its minimal big-endian bytes, encoded as a string (so zero is the
empty string `0x80`). -/
def encNat (n : Nat) : Bytes := encString (natToBE n)

/-- Modelled from the spec: canonical RLP encoding of a Go `*big.Int`.
Negative values are not RLP-encodable (the Go encoder reports an error),
hence `none`. -/
def encInt (i : Int) : Option Bytes :=
  if i < 0 then none else some (encNat i.toNat)

/-- `common.HierarchyDepth = 3` (prime / region / zone), the depth of the
hierarchy of chains and the fixed length of the per-context header
arrays, as declared in the `common` package's constant block. -/
def HierarchyDepth : Nat := 3

/-- The Quai block header (`types.Header`), with the two atomic PoW
memoization slots (`PowDigest`, `PowHash`) modelled as `Option` fields.
Hash-valued fields are raw byte strings; `*big.Int` fields are `Int`. -/
structure Header where
  parentHash : List Bytes
  uncleHash : Bytes
  coinbase : Bytes
  root : Bytes
  txHash : Bytes
  etxHash : Bytes
  etxRollupHash : Bytes
  manifestHash : List Bytes
  receiptHash : Bytes
  difficulty : Int
  parentEntropy : List Int
  parentDeltaS : List Int
  number : List Int
  gasLimit : Nat
  gasUsed : Nat
  baseFee : Int
  location : Bytes
  time : Nat
  extra : Bytes
  mixHash : Bytes
  nonce : Bytes
  powDigest : Option Bytes
  powHash : Option Bytes
deriving DecidableEq, Repr

/-- `types.sealData`: the header fields that participate in sealing, in Go
struct declaration order (the reflection-based RLP encoder serializes
struct fields in this order).  The nonce slot exists but `SealHash` leaves
it at the zero value. -/
structure SealData where
  parentHash : List Bytes
  uncleHash : Bytes
  coinbase : Bytes
  root : Bytes
  txHash : Bytes
  etxHash : Bytes
  etxRollupHash : Bytes
  manifestHash : List Bytes
  receiptHash : Bytes
  number : List Int
  gasLimit : Nat
  gasUsed : Nat
  baseFee : Int
  difficulty : Int
  location : Bytes
  time : Nat
  extra : Bytes
  nonce : Bytes
deriving DecidableEq, Repr

/-- The `sealData` value `SealHash` builds: `HierarchyDepth` entries are
read from each of `parentHash`, `manifestHash` and `number` through the
localized accessors (`h.ParentHash(i)` is `h.parentHash[i]`, which panics —
`none` — when the header's array is shorter); the nonce field is left at
Go's zero value, an 8-byte zero `BlockNonce`. -/
def sealDataOf (h : Header) : Option SealData :=
  match h.parentHash.get? 0, h.parentHash.get? 1, h.parentHash.get? 2,
        h.manifestHash.get? 0, h.manifestHash.get? 1, h.manifestHash.get? 2,
        h.number.get? 0, h.number.get? 1, h.number.get? 2 with
  | some p0, some p1, some p2, some m0, some m1, some m2,
    some n0, some n1, some n2 =>
      some { parentHash := [p0, p1, p2]
             uncleHash := h.uncleHash
             coinbase := h.coinbase
             root := h.root
             txHash := h.txHash
             etxHash := h.etxHash
             etxRollupHash := h.etxRollupHash
             manifestHash := [m0, m1, m2]
             receiptHash := h.receiptHash
             number := [n0, n1, n2]
             gasLimit := h.gasLimit
             gasUsed := h.gasUsed
             baseFee := h.baseFee
             difficulty := h.difficulty
             location := h.location
             time := h.time
             extra := h.extra
             nonce := List.replicate 8 0 }
  | _, _, _, _, _, _, _, _, _ => none

/-- RLP encoding of a `sealData` struct: the RLP list of the fields'
encodings in struct declaration order (`[]common.Hash` as a list of
strings, `[]*big.Int` as a list of integers).  `none` when a `*big.Int`
field is negative, which the Go encoder rejects. -/
def encodeSealData (sd : SealData) : Option Bytes := do
  let nums ← sd.number.mapM encInt
  let base ← encInt sd.baseFee
  let diff ← encInt sd.difficulty
  some (encList (
    encList ((sd.parentHash.map encString).flatten) ++
    encString sd.uncleHash ++
    encString sd.coinbase ++
    encString sd.root ++
    encString sd.txHash ++
    encString sd.etxHash ++
    encString sd.etxRollupHash ++
    encList ((sd.manifestHash.map encString).flatten) ++
    encString sd.receiptHash ++
    encList nums.flatten ++
    encNat sd.gasLimit ++
    encNat sd.gasUsed ++
    base ++
    diff ++
    encString sd.location ++
    encNat sd.time ++
    encString sd.extra ++
    encString sd.nonce))

/-- `Header.SealHash`: BLAKE3-256 (the `b3` parameter) of the RLP encoding
of the `sealData` built from the header.  `rlp.Encode`'s error return is
discarded by the source; on an encoding error nothing is written to the
hasher, so the hash taken is that of the empty string (`.getD []`). -/
def sealHash (b3 : Bytes → Bytes) (h : Header) : Option Bytes :=
  (sealDataOf h).map (fun sd => b3 ((encodeSealData sd).getD []))

/-- Go's `copy(dst[off:], src)` on byte slices: overwrite
`min (dst.length - off) src.length` bytes of `dst` starting at `off`. -/
def goCopyAt (dst src : Bytes) (off : Nat) : Bytes :=
  let n := min (dst.length - off) src.length
  dst.take off ++ src.take n ++ dst.drop (off + n)

/-- `Header.Hash`: BLAKE3-256 of the 40-byte buffer holding the 8 nonce
bytes followed by the 32 seal-hash bytes (two `copy`s into a zeroed
`[40]byte`). -/
def headerHash (b3 : Bytes → Bytes) (h : Header) : Option Bytes :=
  (sealHash b3 h).map (fun sh =>
    b3 (goCopyAt (goCopyAt (List.replicate 40 0) h.nonce 0) sh 8))

/-- The seal pre-image as the spec's §4.7 sentence words it: the canonical
RLP list of `[parentHash[], uncleHash, coinbase, root, txHash, etxHash,
etxRollupHash, manifestHash[], receiptHash, number[], gasLimit, gasUsed,
baseFee, difficulty, location, time, extra, nonce]` with a zero-filled
8-byte `BlockNonce` in the nonce position.  Stated independently of
`sealHash` so that the two can be compared. -/
def sealPreimageSpec (h : Header) : Option Bytes := do
  let p0 ← h.parentHash.get? 0
  let p1 ← h.parentHash.get? 1
  let p2 ← h.parentHash.get? 2
  let m0 ← h.manifestHash.get? 0
  let m1 ← h.manifestHash.get? 1
  let m2 ← h.manifestHash.get? 2
  let n0 ← h.number.get? 0 >>= encInt
  let n1 ← h.number.get? 1 >>= encInt
  let n2 ← h.number.get? 2 >>= encInt
  let base ← encInt h.baseFee
  let diff ← encInt h.difficulty
  some (encList (
    encList (encString p0 ++ encString p1 ++ encString p2) ++
    encString h.uncleHash ++
    encString h.coinbase ++
    encString h.root ++
    encString h.txHash ++
    encString h.etxHash ++
    encString h.etxRollupHash ++
    encList (encString m0 ++ encString m1 ++ encString m2) ++
    encString h.receiptHash ++
    encList (n0 ++ n1 ++ n2) ++
    encNat h.gasLimit ++
    encNat h.gasUsed ++
    base ++
    diff ++
    encString h.location ++
    encNat h.time ++
    encString h.extra ++
    encString (List.replicate 8 0)))

/-- `progpow.Mode`: the type and amount of PoW verification the engine
makes. -/
inductive Mode where
  | normal
  | shared
  | test
  | fake
  | fullFake
deriving DecidableEq, Repr

/-- `progpow.Config`, restricted to the field the verifier reads. -/
structure Config where
  powMode : Mode
deriving DecidableEq, Repr

/-- The engine's block-invalidity errors (`errInvalidDifficulty`,
`errInvalidMixHash`, `errInvalidPoW`). -/
inductive PowErr where
  | invalidDifficulty
  | invalidMixHash
  | invalidPoW
deriving DecidableEq, Repr

/-- The outcome of `verifySeal`: the returned hash and error, the header
post-state (its memoization slots may have been populated), and the number
of ProgPoW kernel invocations the call performed (instrumentation of the
single `powLight` application site, to make recomputation observable). -/
structure VerifyRes where
  hash : Bytes
  err : Option PowErr
  hdr : Header
  kcalls : Nat
deriving DecidableEq, Repr

/-- `progpow.Progpow`: the engine — its config, the optional shared
verifier it delegates to, and the fake-mode test hooks.  `fakeDelay` is a
real-time sleep with no effect on any returned value; it is carried but
uninterpreted. -/
inductive Progpow where
  | mk (config : Config) (shared : Option Progpow) (fakeFail : Nat) (fakeDelay : Nat)
deriving Repr

/-- The ProgPoW light kernel `(seal_hash, nonce, block_number) ↦ (digest,
result)`; its implementation (`progpowLight` plus the epoch cache) is
outside the verifier logic, so it is a parameter. -/
abbrev Kernel := Bytes → Nat → Nat → Bytes × Bytes

/-- Go `big.Int.Uint64` on our `Int` model: the low 64 bits of the
absolute value. -/
def intU64 (i : Int) : Nat := i.natAbs % 2 ^ 64

/-- `Progpow.ComputePowLight`: hash the header's seal hash with its nonce
and zone-context block number through the kernel, then store both outputs
in the header's memoization slots.  `nodeCtx` is the global
`common.NodeLocation.Context()` used by `header.NumberU64()` when fetching
the epoch cache, `zoneCtx` is `common.ZONE_CTX`; either index out of range
panics (`none`).  The result carries the updated header and the kernel
invocation count (always 1: this function recomputes unconditionally). -/
def computePowLight (kernel : Kernel) (nodeCtx zoneCtx : Nat)
    (b3 : Bytes → Bytes) (h : Header) : Option ((Bytes × Bytes) × Header × Nat) :=
  match h.number.get? nodeCtx, sealHash b3 h, h.number.get? zoneCtx with
  | some _, some sh, some nz =>
      let mp := kernel sh (beNat h.nonce) (intU64 nz)
      some (mp, { h with powDigest := some mp.1, powHash := some mp.2 }, 1)
  | _, _, _ => none

/-- The `(mix_hash, pow_hash)` pair `verifySeal` uses: the memoized slots
when both are populated, otherwise a fresh `computePowLight` (which
populates them).  Mirrors the `powHash == nil || mixHash == nil` load at
lines 855–859 of the source. -/
def powPairOf (kernel : Kernel) (nodeCtx zoneCtx : Nat)
    (b3 : Bytes → Bytes) (h : Header) : Option ((Bytes × Bytes) × Header × Nat) :=
  match h.powDigest, h.powHash with
  | some dg, some ph => some ((dg, ph), h, 0)
  | _, _ => computePowLight kernel nodeCtx zoneCtx b3 h

/-- The fake-mode branch of `verifySeal` (lines 839–845 of the source):
sleep the configured delay (a timing effect, not modelled), then fail with
`InvalidPoW` exactly when the header's number at the node context equals
the configured `fakeFail`, else accept with the zero hash.
`header.Number()` panics (`none`) when the context index is out of
range. -/
def fakeVerify (nodeCtx : Nat) (ff : Nat) (h : Header) : Option VerifyRes :=
  match h.number.get? nodeCtx with
  | none => none
  | some n =>
      if ff = intU64 n then some ⟨zeroHash, some .invalidPoW, h, 0⟩
      else some ⟨zeroHash, none, h, 0⟩

/-- The Normal-mode tail of `verifySeal` (lines 850–868 of the source):
the difficulty sign check, the memoized-or-computed PoW pair, the mix-hash
comparison, and the target comparison. -/
def normalVerify (kernel : Kernel) (nodeCtx zoneCtx : Nat)
    (b3 : Bytes → Bytes) (h : Header) : Option VerifyRes :=
  if h.difficulty ≤ 0 then some ⟨zeroHash, some .invalidDifficulty, h, 0⟩
  else
    match powPairOf kernel nodeCtx zoneCtx b3 h with
    | none => none
    | some ((dg, ph), h', k) =>
        if h.mixHash = dg then
          if beNat ph > 2 ^ 256 / h.difficulty.toNat then
            some ⟨ph, some .invalidPoW, h', k⟩
          else some ⟨ph, none, h', k⟩
        else some ⟨zeroHash, some .invalidMixHash, h', k⟩

/-- `Progpow.verifySeal`: fake modes short-circuit through `fakeVerify`;
a shared engine delegates to the shared instance; otherwise Normal-mode
verification runs through `normalVerify`. -/
def verifySeal (kernel : Kernel) (nodeCtx zoneCtx : Nat)
    (b3 : Bytes → Bytes) : Progpow → Header → Option VerifyRes
  | .mk cfg shr ff _fd, h =>
    if cfg.powMode = Mode.fake ∨ cfg.powMode = Mode.fullFake then
      fakeVerify nodeCtx ff h
    else
      match shr with
      | some sp => verifySeal kernel nodeCtx zoneCtx b3 sp h
      | none => normalVerify kernel nodeCtx zoneCtx b3 h

/-- `progpow.dumpMagic`: the two sanity-check words at the front of a
cache dump. -/
def dumpMagicWords : List Nat := [0xbaddcafe, 0xfee1dead]

/-- The single failure `memoryMap` distinguishes by value
(`ErrInvalidDumpMagic`); open/mmap system errors are outside the model. -/
inductive MapErr where
  | invalidDumpMagic
deriving DecidableEq, Repr

/-- The magic-validation loop of `memoryMap`: compare each expected magic
word against the next buffer word, failing at the first mismatch
(`some false`); reading past the end of the buffer is a panic (`none`). -/
def checkMagic : List Nat → List Nat → Option Bool
  | [], _ => some true
  | _ :: _, [] => none
  | m :: ms, b :: bs => if b ≠ m then some false else checkMagic ms bs

/-- `progpow.memoryMap` on the mapped word buffer of a readable file:
validate the two magic words, then expose the buffer with the magic
stripped from the front. -/
def memoryMap (buffer : List Nat) : Option (Except MapErr (List Nat)) :=
  (checkMagic dumpMagicWords buffer).map (fun ok =>
    if ok then Except.ok (buffer.drop dumpMagicWords.length)
    else Except.error MapErr.invalidDumpMagic)

/-- The state of `progpow.lru`: the `simplelru.LRU` entries in
most-recently-used-first order (values are `Option` because the Go values
are `interface{}` and the future item may be absent), the capacity, and
the distinguished future slot. -/
structure LruState (α : Type) where
  entries : List (Nat × Option α)
  size : Nat
  future : Nat
  futureItem : Option α

/-- `simplelru.LRU.Get`: look the key up and move its entry to the front;
miss leaves the state unchanged. -/
def lruCacheGet {α : Type} (s : LruState α) (k : Nat) :
    Option (Option α) × LruState α :=
  match s.entries.find? (fun p => p.1 == k) with
  | some pr => (some pr.2, { s with entries := pr :: s.entries.filter (fun p => p.1 != k) })
  | none => (none, s)

/-- `simplelru.LRU.Add`: insert or update at the front; when a fresh
insert pushes the length beyond the capacity, evict the oldest entry. -/
def lruCacheAdd {α : Type} (s : LruState α) (k : Nat) (v : Option α) : LruState α :=
  if s.entries.any (fun p => p.1 == k) then
    { s with entries := (k, v) :: s.entries.filter (fun p => p.1 != k) }
  else
    let es := (k, v) :: s.entries
    { s with entries := if es.length > s.size then es.dropLast else es }

/-- The future-slot update at the tail of `lru.get` (lines 600–607 of the
source): when `epoch` is below `maxEpoch - 1` and larger than every
previously seen epoch, create the `epoch + 1` item, store it in the future
slot, and also return it for asynchronous warm-up. -/
def lruFuture {α : Type} (maxEpoch : Nat) (newf : Nat → α) (s2 : LruState α)
    (epoch : Nat) (item : Option α) : Option α × Option α × LruState α :=
  if epoch < maxEpoch - 1 ∧ s2.future < epoch + 1 then
    let fut := newf (epoch + 1)
    (item, some fut, { s2 with future := epoch + 1, futureItem := some fut })
  else (item, none, s2)

/-- `lru.get`: fetch or create the item for `epoch` (reusing the future
item when it is exactly the requested epoch), add it to the LRU, and push
the future slot to `epoch + 1` when the epoch is larger than previously
seen (`maxEpoch` is the package constant bounding epochs; its defining
file is absent, so it is a parameter).  Returns the item, the new future
item if one was created, and the new state. -/
def lruGet {α : Type} (maxEpoch : Nat) (newf : Nat → α) (s : LruState α)
    (epoch : Nat) : Option α × Option α × LruState α :=
  match lruCacheGet s epoch with
  | (some it, s1) => lruFuture maxEpoch newf s1 epoch it
  | (none, s1) =>
      let it : Option α := if 0 < s1.future ∧ s1.future = epoch then s1.futureItem
        else some (newf epoch)
      lruFuture maxEpoch newf (lruCacheAdd s1 epoch it) epoch it

/-! ## Shared concrete instances for witnesses and counterexamples -/

/-- A concrete stand-in for the abstract BLAKE3-256 parameter: 31 zero
bytes followed by the input length modulo 256, so outputs always have
length 32. -/
def b3len : Bytes → Bytes := fun l => List.replicate 31 0 ++ [l.length % 256]

/-- Every `b3len` output is 32 bytes long. -/
theorem b3len_length (l : Bytes) : (b3len l).length = 32 := by
  simp [b3len]

/-- A concrete well-formed header: three zero entries in each per-context
array, difficulty 1, zero everything else, empty memoization slots. -/
def hdr0 : Header :=
  { parentHash := List.replicate 3 zeroHash
    uncleHash := zeroHash
    coinbase := List.replicate 20 0
    root := zeroHash
    txHash := zeroHash
    etxHash := zeroHash
    etxRollupHash := zeroHash
    manifestHash := List.replicate 3 zeroHash
    receiptHash := zeroHash
    difficulty := 1
    parentEntropy := []
    parentDeltaS := []
    number := [0, 0, 42]
    gasLimit := 0
    gasUsed := 0
    baseFee := 0
    location := []
    time := 0
    extra := []
    mixHash := zeroHash
    nonce := List.replicate 8 0
    powDigest := none
    powHash := none }

/-- `hdr0` with a one-entry `parentHash` array, shorter than
`HierarchyDepth`. -/
def hdrShort : Header := { hdr0 with parentHash := [zeroHash] }

/-! ## C7 — memoryMap magic validation -/

/-- C7: on a mapped word buffer of at least two words, `memoryMap` fails
with `ErrInvalidDumpMagic` exactly when the first two words differ from
`0xbaddcafe, 0xfee1dead`, and on the correct magic it succeeds with the
two magic words stripped from the front of the exposed slice. -/
theorem memoryMap_magic (buffer : List Nat) (h2 : 2 ≤ buffer.length) :
    (memoryMap buffer = some (Except.error MapErr.invalidDumpMagic) ↔
      ¬ (buffer.get? 0 = some 0xbaddcafe ∧ buffer.get? 1 = some 0xfee1dead)) ∧
    ((buffer.get? 0 = some 0xbaddcafe ∧ buffer.get? 1 = some 0xfee1dead) →
      memoryMap buffer = some (Except.ok (buffer.drop 2))) := by
  match buffer with
  | [] => simp at h2
  | [x] => simp at h2
  | x :: y :: rest =>
      by_cases hx : x = 0xbaddcafe <;> by_cases hy : y = 0xfee1dead <;>
        simp [memoryMap, checkMagic, dumpMagicWords, hx, hy]

/-- Witness for C7 at a concrete three-word buffer with correct magic. -/
theorem memoryMap_magic_witness :
    2 ≤ ([0xbaddcafe, 0xfee1dead, 7] : List Nat).length ∧
    ((memoryMap [0xbaddcafe, 0xfee1dead, 7] =
        some (Except.error MapErr.invalidDumpMagic) ↔
      ¬ (([0xbaddcafe, 0xfee1dead, 7] : List Nat).get? 0 = some 0xbaddcafe ∧
         ([0xbaddcafe, 0xfee1dead, 7] : List Nat).get? 1 = some 0xfee1dead)) ∧
    ((([0xbaddcafe, 0xfee1dead, 7] : List Nat).get? 0 = some 0xbaddcafe ∧
      ([0xbaddcafe, 0xfee1dead, 7] : List Nat).get? 1 = some 0xfee1dead) →
      memoryMap [0xbaddcafe, 0xfee1dead, 7] =
        some (Except.ok (([0xbaddcafe, 0xfee1dead, 7] : List Nat).drop 2)))) :=
  ⟨by decide, memoryMap_magic _ (by decide)⟩

/-! ## C10 — the seal hash ignores nonce and mixHash -/

/-- C10: two headers identical except in their `nonce` and `mixHash`
fields have the same seal hash — `SealHash` never reads either field (the
seal pre-image's nonce slot is the zero `BlockNonce`). -/
theorem sealHash_independent_of_nonce_mixHash (b3 : Bytes → Bytes)
    (h : Header) (n mx : Bytes) :
    sealHash b3 { h with nonce := n, mixHash := mx } = sealHash b3 h := rfl

/-! ## C4 — seal hashing of headers with short per-context arrays -/

/-- `sealDataOf` succeeds exactly when each per-context array supplies at
least `HierarchyDepth` entries; there is no zero-padding of missing
entries. -/
theorem sealDataOf_isSome_iff (h : Header) :
    (sealDataOf h).isSome ↔
      (HierarchyDepth ≤ h.parentHash.length ∧
       HierarchyDepth ≤ h.manifestHash.length ∧
       HierarchyDepth ≤ h.number.length) := by
  constructor
  · intro hs
    rw [sealDataOf] at hs
    split at hs
    · rename_i p0 p1 p2 m0 m1 m2 n0 n1 n2 hp0 hp1 hp2 hm0 hm1 hm2 hn0 hn1 hn2
      have l1 := (List.get?_eq_some.mp hp2).1
      have l2 := (List.get?_eq_some.mp hm2).1
      have l3 := (List.get?_eq_some.mp hn2).1
      refine ⟨?_, ?_, ?_⟩ <;> simp [HierarchyDepth] <;> omega
    · simp at hs
  · rintro ⟨ha, hb, hc⟩
    simp only [HierarchyDepth] at ha hb hc
    rw [sealDataOf]
    rw [List.get?_eq_get (show 0 < h.parentHash.length by omega),
        List.get?_eq_get (show 1 < h.parentHash.length by omega),
        List.get?_eq_get (show 2 < h.parentHash.length by omega),
        List.get?_eq_get (show 0 < h.manifestHash.length by omega),
        List.get?_eq_get (show 1 < h.manifestHash.length by omega),
        List.get?_eq_get (show 2 < h.manifestHash.length by omega),
        List.get?_eq_get (show 0 < h.number.length by omega),
        List.get?_eq_get (show 1 < h.number.length by omega),
        List.get?_eq_get (show 2 < h.number.length by omega)]
    rfl

/-- Counterexample for C4: a header whose `parentHash` array has a single
entry — fewer than `HierarchyDepth` — makes `SealHash` panic (index out of
range, modelled as `none`); it does not succeed with zero-padding. -/
theorem sealHash_short_header_fails :
    hdrShort.parentHash.length < HierarchyDepth ∧
    sealHash b3len hdrShort = none := by
  constructor
  · decide
  · rfl

/-- C4 amended: `SealHash` reads exactly `HierarchyDepth` entries from
each of `parentHash`, `manifestHash` and `number` through the localized
accessors, so it succeeds precisely when each of those arrays supplies at
least `HierarchyDepth` entries; a header supplying fewer makes the
accessor panic instead of being padded with zero values. -/
theorem sealHash_defined_iff (b3 : Bytes → Bytes) (h : Header) :
    (sealHash b3 h).isSome ↔
      (HierarchyDepth ≤ h.parentHash.length ∧
       HierarchyDepth ≤ h.manifestHash.length ∧
       HierarchyDepth ≤ h.number.length) := by
  rw [← sealDataOf_isSome_iff, sealHash]
  cases sealDataOf h <;> simp

/-! ## C2 — the seal hash is BLAKE3-256 of the spec's field tuple -/

/-- C2: whenever the seal pre-image of the claim is well-defined, the
source's `SealHash` is exactly BLAKE3-256 of the canonical RLP encoding of
the tuple `[parentHash[], uncleHash, coinbase, root, txHash, etxHash,
etxRollupHash, manifestHash[], receiptHash, number[], gasLimit, gasUsed,
baseFee, difficulty, location, time, extra, nonce]` with a zero-filled
8-byte `BlockNonce` in the nonce position. -/
theorem sealHash_is_specPreimage (b3 : Bytes → Bytes) (h : Header) (pre : Bytes)
    (hp : sealPreimageSpec h = some pre) :
    sealHash b3 h = some (b3 pre) := by
  simp only [sealPreimageSpec, bind, Option.bind_eq_some, Option.some.injEq] at hp
  obtain ⟨p0, hp0, p1, hp1, p2, hp2, m0, hm0, m1, hm1, m2, hm2,
    e0, ⟨n0, hn0, he0⟩, e1, ⟨n1, hn1, he1⟩, e2, ⟨n2, hn2, he2⟩,
    eb, heb, ed, hed, hpre⟩ := hp
  have hsd : sealDataOf h = some
      { parentHash := [p0, p1, p2]
        uncleHash := h.uncleHash
        coinbase := h.coinbase
        root := h.root
        txHash := h.txHash
        etxHash := h.etxHash
        etxRollupHash := h.etxRollupHash
        manifestHash := [m0, m1, m2]
        receiptHash := h.receiptHash
        number := [n0, n1, n2]
        gasLimit := h.gasLimit
        gasUsed := h.gasUsed
        baseFee := h.baseFee
        difficulty := h.difficulty
        location := h.location
        time := h.time
        extra := h.extra
        nonce := List.replicate 8 0 } := by
    rw [sealDataOf, hp0, hp1, hp2, hm0, hm1, hm2, hn0, hn1, hn2]
  rw [sealHash, hsd]
  simp only [Option.map_some', Option.some.injEq]
  have hesd : encodeSealData
      { parentHash := [p0, p1, p2]
        uncleHash := h.uncleHash
        coinbase := h.coinbase
        root := h.root
        txHash := h.txHash
        etxHash := h.etxHash
        etxRollupHash := h.etxRollupHash
        manifestHash := [m0, m1, m2]
        receiptHash := h.receiptHash
        number := [n0, n1, n2]
        gasLimit := h.gasLimit
        gasUsed := h.gasUsed
        baseFee := h.baseFee
        difficulty := h.difficulty
        location := h.location
        time := h.time
        extra := h.extra
        nonce := List.replicate 8 0 } = some (encList (
      encList (encString p0 ++ (encString p1 ++ (encString p2 ++ []))) ++
      encString h.uncleHash ++
      encString h.coinbase ++
      encString h.root ++
      encString h.txHash ++
      encString h.etxHash ++
      encString h.etxRollupHash ++
      encList (encString m0 ++ (encString m1 ++ (encString m2 ++ []))) ++
      encString h.receiptHash ++
      encList (e0 ++ (e1 ++ (e2 ++ []))) ++
      encNat h.gasLimit ++
      encNat h.gasUsed ++
      eb ++
      ed ++
      encString h.location ++
      encNat h.time ++
      encString h.extra ++
      encString (List.replicate 8 0))) := by
    have hnums : List.mapM.loop encInt [n0, n1, n2] [] = some [e0, e1, e2] := by
      simp [List.mapM.loop, he0, he1, he2]
    simp [encodeSealData, List.mapM, hnums, heb, hed, List.flatten]
  rw [hesd]
  simp only [Option.getD_some, Option.some.injEq]
  apply congrArg b3
  rw [← hpre]
  simp only [List.append_assoc, List.append_nil]

/-- The concrete seal pre-image of `hdr0`, for the C2 witness. -/
def wPre : Bytes := (sealPreimageSpec hdr0).getD []

/-- Witness for C2 at the concrete header `hdr0`. -/
theorem sealHash_is_specPreimage_witness :
    sealPreimageSpec hdr0 = some wPre ∧ sealHash b3len hdr0 = some (b3len wPre) :=
  ⟨rfl, sealHash_is_specPreimage b3len hdr0 wPre rfl⟩

/-! ## C5 — the block hash is BLAKE3-256 of nonce ‖ seal hash -/

/-- C5: the block hash `Header.Hash` is BLAKE3-256 of the 40-byte
concatenation of the 8 raw nonce bytes with the 32-byte seal hash. -/
theorem headerHash_nonce_concat (b3 : Bytes → Bytes) (h : Header) (sh : Bytes)
    (hn : h.nonce.length = 8) (hsh : sealHash b3 h = some sh)
    (hlen : sh.length = 32) :
    headerHash b3 h = some (b3 (h.nonce ++ sh)) ∧
    (h.nonce ++ sh).length = 40 := by
  refine ⟨?_, by simp [hn, hlen]⟩
  rw [headerHash, hsh]
  simp only [Option.map_some', Option.some.injEq]
  apply congrArg b3
  have h1 : goCopyAt (List.replicate 40 0) h.nonce 0 =
      h.nonce ++ List.replicate 32 0 := by
    simp only [goCopyAt, List.length_replicate, Nat.sub_zero, hn]
    rw [show min 40 8 = 8 from rfl, List.take_zero,
      show h.nonce.take 8 = h.nonce from hn ▸ List.take_length h.nonce]
    rfl
  rw [h1]
  simp only [goCopyAt, List.length_append, List.length_replicate, hn, hlen]
  rw [show min (8 + 32 - 8) 32 = 32 by omega]
  have ht1 : List.take 8 (h.nonce ++ List.replicate 32 0) = h.nonce := by
    rw [← hn, List.take_left]
  have ht2 : List.take 32 sh = sh := hlen ▸ List.take_length sh
  have ht3 : List.drop (8 + 32) (h.nonce ++ List.replicate 32 0) = [] := by
    apply List.drop_eq_nil_of_le
    simp [hn]
  rw [ht1, ht2, ht3]
  simp

/-- Witness for C5 at the concrete header `hdr0` and hash `b3len`. -/
theorem headerHash_nonce_concat_witness :
    hdr0.nonce.length = 8 ∧ sealHash b3len hdr0 = some (b3len wPre) ∧
    (b3len wPre).length = 32 ∧
    (headerHash b3len hdr0 = some (b3len (hdr0.nonce ++ b3len wPre)) ∧
     (hdr0.nonce ++ b3len wPre).length = 40) :=
  ⟨rfl, sealHash_is_specPreimage b3len hdr0 wPre rfl, b3len_length wPre,
    headerHash_nonce_concat b3len hdr0 (b3len wPre) rfl
      (sealHash_is_specPreimage b3len hdr0 wPre rfl) (b3len_length wPre)⟩

/-! ## Concrete engine inputs for verifier witnesses -/

/-- A concrete stand-in for the abstract ProgPoW kernel parameter. -/
def kconst : Kernel := fun _ _ _ => (List.replicate 32 1, List.replicate 32 2)

/-- The digest `kconst` always returns. -/
def dg1 : Bytes := List.replicate 32 1

/-- The pow hash `kconst` always returns. -/
def ph1 : Bytes := List.replicate 32 2

/-- `hdr0` with both memoization slots populated with `kconst`'s outputs
and a matching claimed mix hash. -/
def hdrMemo : Header :=
  { hdr0 with mixHash := dg1, powDigest := some dg1, powHash := some ph1 }

/-! ## C1 — the target boundary of verifySeal -/

/-- C1: in Normal mode with no shared engine, positive difficulty, and the
claimed mix hash equal to the pow digest the verifier uses, `verifySeal`
returns `Ok(pow_hash)` exactly when the pow hash, read as a big-endian
integer, is at most `⌊2^256 / difficulty⌋`, and `InvalidPoW` carrying that
same pow hash otherwise. -/
theorem verifySeal_target_boundary
    (kernel : Kernel) (nodeCtx zoneCtx : Nat) (b3 : Bytes → Bytes)
    (ff fd : Nat) (h : Header) (dg ph : Bytes) (h' : Header) (k : Nat)
    (hd : 0 < h.difficulty)
    (hp : powPairOf kernel nodeCtx zoneCtx b3 h = some ((dg, ph), h', k))
    (hm : h.mixHash = dg) :
    (beNat ph ≤ 2 ^ 256 / h.difficulty.toNat →
      verifySeal kernel nodeCtx zoneCtx b3 (.mk ⟨.normal⟩ none ff fd) h =
        some ⟨ph, none, h', k⟩) ∧
    (2 ^ 256 / h.difficulty.toNat < beNat ph →
      verifySeal kernel nodeCtx zoneCtx b3 (.mk ⟨.normal⟩ none ff fd) h =
        some ⟨ph, some .invalidPoW, h', k⟩) := by
  have hdd : ¬ h.difficulty ≤ 0 := not_le.mpr hd
  refine ⟨fun hcmp => ?_, fun hcmp => ?_⟩
  · have hgt : ¬ beNat ph > 2 ^ 256 / h.difficulty.toNat := not_lt.mpr hcmp
    rw [verifySeal.eq_def]
    simp [normalVerify, hdd, hp, hm, hgt]
    exact hcmp
  · rw [verifySeal.eq_def]
    simp [normalVerify, hdd, hp, hm, hcmp]
    exact hcmp

/-- Witness for C1 at a memoized concrete header with difficulty 1, whose
pow hash is below the target. -/
theorem verifySeal_target_boundary_witness :
    0 < hdrMemo.difficulty ∧
    powPairOf kconst 0 2 b3len hdrMemo = some ((dg1, ph1), hdrMemo, 0) ∧
    hdrMemo.mixHash = dg1 ∧
    beNat ph1 ≤ 2 ^ 256 / hdrMemo.difficulty.toNat ∧
    verifySeal kconst 0 2 b3len (.mk ⟨.normal⟩ none 0 0) hdrMemo =
      some ⟨ph1, none, hdrMemo, 0⟩ := by
  have hle : beNat ph1 ≤ 2 ^ 256 / hdrMemo.difficulty.toNat := by decide
  exact ⟨by decide, rfl, rfl, hle,
    (verifySeal_target_boundary kconst 0 2 b3len 0 0 hdrMemo dg1 ph1 hdrMemo 0
      (by decide) rfl rfl).1 hle⟩

/-! ## C8 — fake and full-fake modes -/

/-- C8: with mode Fake or FullFake, `verifySeal` ignores difficulty, the
memoization slots and the PoW entirely (the result holds for every kernel
and every header state, the header is returned unchanged, and the kernel
invocation count is zero): it returns `InvalidPoW` with the zero hash when
the header's number equals the configured `fakeFail`, and `Ok(zero_hash)`
otherwise.  The configured `fakeDelay` sleep is a timing effect with no
bearing on values. -/
theorem verifySeal_fake_mode
    (kernel : Kernel) (nodeCtx zoneCtx : Nat) (b3 : Bytes → Bytes)
    (mode : Mode) (shr : Option Progpow) (ff fd : Nat) (h : Header) (n : Int)
    (hmode : mode = Mode.fake ∨ mode = Mode.fullFake)
    (hn : h.number.get? nodeCtx = some n) :
    (ff = intU64 n →
      verifySeal kernel nodeCtx zoneCtx b3 (.mk ⟨mode⟩ shr ff fd) h =
        some ⟨zeroHash, some .invalidPoW, h, 0⟩) ∧
    (ff ≠ intU64 n →
      verifySeal kernel nodeCtx zoneCtx b3 (.mk ⟨mode⟩ shr ff fd) h =
        some ⟨zeroHash, none, h, 0⟩) := by
  have hn' : h.number[nodeCtx]? = some n := by
    rw [← List.get?_eq_getElem?]
    exact hn
  refine ⟨fun he => ?_, fun he => ?_⟩ <;>
    rcases hmode with hmode | hmode <;> subst hmode <;>
      (rw [verifySeal.eq_def]; simp [fakeVerify, hn', he])

/-- Witness for C8: fake mode with `fakeFail = 42` rejects the header with
zone number 42. -/
theorem verifySeal_fake_mode_witness :
    (Mode.fake = Mode.fake ∨ Mode.fake = Mode.fullFake) ∧
    hdr0.number.get? 2 = some 42 ∧
    ((42 : Nat) = intU64 42 →
      verifySeal kconst 2 2 b3len (.mk ⟨Mode.fake⟩ none 42 0) hdr0 =
        some ⟨zeroHash, some .invalidPoW, hdr0, 0⟩) ∧
    verifySeal kconst 2 2 b3len (.mk ⟨Mode.fake⟩ none 42 0) hdr0 =
      some ⟨zeroHash, some .invalidPoW, hdr0, 0⟩ := by
  have t := verifySeal_fake_mode kconst 2 2 b3len Mode.fake none 42 0 hdr0 42
    (Or.inl rfl) rfl
  exact ⟨Or.inl rfl, rfl, t.1, t.1 (by decide)⟩

/-! ## C9 — non-positive difficulty -/

/-- C9: in Normal mode with no shared engine and non-positive difficulty,
`verifySeal` returns `InvalidDifficulty` with the zero hash; the header is
returned unchanged, no kernel call happens, and the memoization slots are
not consulted (the same result holds with the slots replaced by any
values). -/
theorem verifySeal_invalid_difficulty
    (kernel : Kernel) (nodeCtx zoneCtx : Nat) (b3 : Bytes → Bytes)
    (ff fd : Nat) (h : Header) (hd : h.difficulty ≤ 0) :
    verifySeal kernel nodeCtx zoneCtx b3 (.mk ⟨.normal⟩ none ff fd) h =
      some ⟨zeroHash, some .invalidDifficulty, h, 0⟩ ∧
    (∀ dgs phs : Option Bytes,
      verifySeal kernel nodeCtx zoneCtx b3 (.mk ⟨.normal⟩ none ff fd)
          { h with powDigest := dgs, powHash := phs } =
        some ⟨zeroHash, some .invalidDifficulty,
          { h with powDigest := dgs, powHash := phs }, 0⟩) := by
  refine ⟨by rw [verifySeal.eq_def]; simp [normalVerify, hd],
    fun dgs phs => by rw [verifySeal.eq_def]; simp [normalVerify, hd]⟩

/-- Witness for C9: difficulty 0 is rejected, whatever is in the slots. -/
theorem verifySeal_invalid_difficulty_witness :
    ({ hdr0 with difficulty := 0 } : Header).difficulty ≤ 0 ∧
    verifySeal kconst 0 2 b3len (.mk ⟨.normal⟩ none 0 0)
        { hdr0 with difficulty := 0 } =
      some ⟨zeroHash, some .invalidDifficulty, { hdr0 with difficulty := 0 }, 0⟩ ∧
    verifySeal kconst 0 2 b3len (.mk ⟨.normal⟩ none 0 0)
        { hdr0 with difficulty := 0, powDigest := some dg1, powHash := some ph1 } =
      some ⟨zeroHash, some .invalidDifficulty,
        { hdr0 with difficulty := 0, powDigest := some dg1, powHash := some ph1 }, 0⟩ := by
  have t := verifySeal_invalid_difficulty kconst 0 2 b3len 0 0
    { hdr0 with difficulty := 0 } (by decide)
  exact ⟨by decide, t.1, t.2 (some dg1) (some ph1)⟩

/-! ## C3 — ComputePowLight memoization -/

/-- `hdr0` after one `computePowLight` with `kconst`: both slots hold the
kernel outputs. -/
def hdrC3 : Header := { hdr0 with powDigest := some dg1, powHash := some ph1 }

/-- The seal hash ignores the memoization slots (they are not part of the
seal data). -/
theorem sealHash_set_pow (b3 : Bytes → Bytes) (h : Header) (a b : Option Bytes) :
    sealHash b3 { h with powDigest := a, powHash := b } = sealHash b3 h := rfl

/-- Setting the memoization slots leaves the number array unchanged. -/
theorem number_set_pow (h : Header) (a b : Option Bytes) :
    ({ h with powDigest := a, powHash := b } : Header).number = h.number := rfl

/-- Setting the memoization slots leaves the nonce unchanged. -/
theorem nonce_set_pow (h : Header) (a b : Option Bytes) :
    ({ h with powDigest := a, powHash := b } : Header).nonce = h.nonce := rfl

/-- With both memoization slots populated, Normal-mode `verifySeal`
performs no kernel invocation, whatever the outcome. -/
theorem verifySeal_memo_kcalls (kernel : Kernel) (nodeCtx zoneCtx : Nat)
    (b3 : Bytes → Bytes) (ff fd : Nat) (h : Header) (dg ph : Bytes)
    (hdg : h.powDigest = some dg) (hph : h.powHash = some ph) :
    (verifySeal kernel nodeCtx zoneCtx b3 (.mk ⟨.normal⟩ none ff fd) h).map
      (fun r => r.kcalls) = some 0 := by
  have hred : verifySeal kernel nodeCtx zoneCtx b3 (.mk ⟨.normal⟩ none ff fd) h =
      normalVerify kernel nodeCtx zoneCtx b3 h := by
    rw [verifySeal.eq_def]
    simp
  have hpp : powPairOf kernel nodeCtx zoneCtx b3 h = some ((dg, ph), h, 0) := by
    rw [powPairOf, hdg, hph]
  rw [hred, normalVerify]
  by_cases hd : h.difficulty ≤ 0
  · rw [if_pos hd]
    rfl
  · rw [if_neg hd, hpp]
    by_cases hmx : h.mixHash = dg
    · rw [show (match some ((dg, ph), h, 0) with
        | none => (none : Option VerifyRes)
        | some ((dg, ph), h', k) =>
            if h.mixHash = dg then
              if beNat ph > 2 ^ 256 / h.difficulty.toNat then
                some ⟨ph, some .invalidPoW, h', k⟩
              else some ⟨ph, none, h', k⟩
            else some ⟨zeroHash, some .invalidMixHash, h', k⟩) =
          if h.mixHash = dg then
            if beNat ph > 2 ^ 256 / h.difficulty.toNat then
              some ⟨ph, some .invalidPoW, h, 0⟩
            else some ⟨ph, none, h, 0⟩
          else some ⟨zeroHash, some .invalidMixHash, h, 0⟩ from rfl]
      rw [if_pos hmx]
      by_cases hgt : beNat ph > 2 ^ 256 / h.difficulty.toNat
      · rw [if_pos hgt]
        rfl
      · rw [if_neg hgt]
        rfl
    · simp [hmx]

/-- Counterexample for C3: after a first successful `ComputePowLight` on
`hdr0` (which populates both slots of the resulting header `hdrC3`), a
second `ComputePowLight` call on that header still performs a kernel
invocation — its invocation count is 1, not 0 — rather than returning the
stored values without recomputation: `ComputePowLight` never consults the
slots. -/
theorem computePowLight_recomputes_cex :
    computePowLight kconst 0 2 b3len hdr0 = some ((dg1, ph1), hdrC3, 1) ∧
    hdrC3.powDigest = some dg1 ∧ hdrC3.powHash = some ph1 ∧
    (computePowLight kconst 0 2 b3len hdrC3).map (fun r => r.2.2) = some 1 ∧
    ¬ (computePowLight kconst 0 2 b3len hdrC3).map (fun r => r.2.2) = some 0 := by
  refine ⟨rfl, rfl, rfl, rfl, by decide⟩

/-- C3 amended: a successful `ComputePowLight` populates both memoization
slots with its outputs; a second call recomputes (one fresh kernel
invocation) but — the embedded kernel being a function of the header's
seal fields only — returns the same values and leaves the header, and so
the stored slots, unchanged.  The call that returns the stored values
without recomputation is `verifySeal`, whose kernel invocation count is 0
once both slots are populated. -/
theorem computePowLight_memo_amended
    (kernel : Kernel) (nodeCtx zoneCtx : Nat) (b3 : Bytes → Bytes)
    (h : Header) (mp : Bytes × Bytes) (h' : Header) (k : Nat)
    (h1 : computePowLight kernel nodeCtx zoneCtx b3 h = some (mp, h', k)) :
    h'.powDigest = some mp.1 ∧ h'.powHash = some mp.2 ∧
    computePowLight kernel nodeCtx zoneCtx b3 h' = some (mp, h', 1) ∧
    (∀ ff fd, (verifySeal kernel nodeCtx zoneCtx b3
        (.mk ⟨.normal⟩ none ff fd) h').map (fun r => r.kcalls) = some 0) := by
  rw [computePowLight] at h1
  split at h1
  next x sh nz hx hsh hnz =>
    simp only [Option.some.injEq, Prod.mk.injEq] at h1
    obtain ⟨hmp, hh', hk⟩ := h1
    subst hmp hh' hk
    refine ⟨rfl, rfl, ?_, ?_⟩
    · rw [computePowLight, sealHash_set_pow, number_set_pow, hx, hsh, hnz,
        nonce_set_pow]
    · exact fun ff fd =>
        verifySeal_memo_kcalls kernel nodeCtx zoneCtx b3 ff fd _ _ _ rfl rfl
  next => exact absurd h1 (by simp)

/-- Witness for the amended C3 at the concrete first call on `hdr0`. -/
theorem computePowLight_memo_amended_witness :
    computePowLight kconst 0 2 b3len hdr0 = some ((dg1, ph1), hdrC3, 1) ∧
    hdrC3.powDigest = some (dg1, ph1).1 ∧ hdrC3.powHash = some (dg1, ph1).2 ∧
    computePowLight kconst 0 2 b3len hdrC3 = some ((dg1, ph1), hdrC3, 1) ∧
    (verifySeal kconst 0 2 b3len (.mk ⟨.normal⟩ none 0 0) hdrC3).map
      (fun r => r.kcalls) = some 0 := by
  have t := computePowLight_memo_amended kconst 0 2 b3len hdr0 (dg1, ph1)
    hdrC3 1 rfl
  exact ⟨rfl, t.1, t.2.1, t.2.2.1, t.2.2.2 0 0⟩

/-! ## C6 — the LRU future-slot invariant -/

/-- `simplelru.LRU.Add` of a key not yet present leaves that key present:
the entry is prepended and a capacity eviction (length exceeding a
positive `size`) removes only the oldest entry, never the fresh one. -/
theorem lruCacheAdd_mem {α : Type} (s : LruState α) (e : Nat) (v : Option α)
    (hsz : 1 ≤ s.size) (hany : s.entries.any (fun p => p.1 == e) = false) :
    (lruCacheAdd s e v).entries.any (fun p => p.1 == e) = true := by
  rw [lruCacheAdd, if_neg (by simp [hany])]
  dsimp only
  split
  · next hover =>
      cases hcs : s.entries with
      | nil =>
          rw [hcs] at hover
          simp at hover
          omega
      | cons a t =>
          rw [List.dropLast_cons_of_ne_nil (show a :: t ≠ [] by simp)]
          simp
  · simp

/-- C6: immediately after any `lru.get(e)` on a state with positive
capacity, `e` is present in the main LRU map, and whenever
`e + 1 < maxEpoch` the future slot satisfies `future ≥ e + 1`.  The state
`s` is arbitrary, so the invariant holds after every sequence of `get`
calls (capacity is never changed by `get`). -/
theorem lruGet_invariant {α : Type} (maxEpoch : Nat) (newf : Nat → α)
    (s : LruState α) (e : Nat) (hsz : 1 ≤ s.size) :
    ((lruGet maxEpoch newf s e).2.2.entries.any (fun p => p.1 == e) = true) ∧
    (e + 1 < maxEpoch → e + 1 ≤ (lruGet maxEpoch newf s e).2.2.future) := by
  have hfut : ∀ (s2 : LruState α) (it : Option α), e + 1 < maxEpoch →
      e + 1 ≤ (lruFuture maxEpoch newf s2 e it).2.2.future := by
    intro s2 it hlt
    rw [lruFuture]
    split
    · simp
    · next hcon =>
        have h1 : e < maxEpoch - 1 := by omega
        simp only [not_and, not_lt] at hcon
        simpa using hcon h1
  have hent : ∀ (s2 : LruState α) (it : Option α),
      (lruFuture maxEpoch newf s2 e it).2.2.entries = s2.entries := by
    intro s2 it
    rw [lruFuture]
    split <;> rfl
  rw [lruGet, lruCacheGet]
  cases hfind : s.entries.find? (fun p => p.1 == e) with
  | some pr =>
      have hpr : (pr.1 == e) = true := by simpa using List.find?_some hfind
      dsimp only
      refine ⟨?_, hfut _ _⟩
      rw [hent]
      simp [hpr]
  | none =>
      dsimp only
      refine ⟨?_, hfut _ _⟩
      rw [hent]
      have hany : s.entries.any (fun p => p.1 == e) = false := by
        rw [List.any_eq_false]
        intro p hp
        simpa using List.find?_eq_none.mp hfind p hp
      exact lruCacheAdd_mem s e _ hsz hany

/-- Witness for C6 at an empty one-slot LRU and epoch 5. -/
theorem lruGet_invariant_witness :
    1 ≤ (⟨[], 1, 0, none⟩ : LruState Nat).size ∧
    (((lruGet 2048 (fun x => x) ⟨[], 1, 0, none⟩ 5).2.2.entries.any
        (fun p => p.1 == 5) = true) ∧
     (5 + 1 < 2048 → 5 + 1 ≤ (lruGet 2048 (fun x => x) ⟨[], 1, 0, none⟩ 5).2.2.future)) :=
  ⟨by decide, lruGet_invariant 2048 (fun x => x) ⟨[], 1, 0, none⟩ 5 (by decide)⟩
